import Mathlib

/-!
Verification development for the `wade` data-binding engine (`bind/binding.go`).

The Go source is shallowly embedded: Go `reflect.Value`s become the inductive
`RVal` (with `RVal.invalid` standing for the zero `reflect.Value`), `interface`
dispatch over `scopeSymbol` / `symbolTable` becomes inductive types, errors
(`error` returns and `panic`) become `Option String` / `Except String`, and
the side effects of bind tasks (DOM mutation, watch installation, invocation
of Go functions) are reified as explicit effect lists so that temporal claims
about them can be stated.

Several helpers used by `binding.go` live in repository files that are not
part of the sources being verified (`parse`, `parseExpr`, `isValidExprChar`,
`evaluateObjField`, `callFunc`); these are modelled from the spec and marked
as such in their doc comments.  Everything else is translated directly from
`bind/binding.go`.
-/

namespace Wade

/-- Embedding of Go `reflect.Value` restricted to the value universe the
binding engine manipulates: strings, integers, booleans and functions.
`RVal.invalid` is the zero `reflect.Value` (also used for a `nil`
`interface` value where the Go code stores one in a `reflect.Value`).
A function value carries the heap identity `fid` of the Go closure plus its
arity and number of return values; the behavior of closure `fid` is given by
a `FnEnv` (see below), keeping this type first-order. -/
inductive RVal where
  | invalid
  | vstr (s : String)
  | vint (n : Int)
  | vbool (b : Bool)
  | vfunc (fid : Nat) (numIn numOut : Nat)
deriving DecidableEq

/-- The behavior of the Go closures reachable during a bind pass: closure
`fid`, applied to evaluated arguments, returns its (single) result value.
This stands for the Go runtime's function-call semantics and is threaded
through the evaluator as an explicit parameter. -/
def FnEnv : Type := Nat → List RVal → RVal

/-- Models `reflect.Value.IsValid`. -/
def RVal.isValid : RVal → Bool
  | .invalid => false
  | _ => true

/-- Models `reflect.Value.CanInterface`.  In the value universe of this
embedding no value originates from an unexported struct field, so every
valid value can be converted back to an `interface` value. -/
def RVal.canInterface (v : RVal) : Bool := v.isValid

/-- Models `reflect.Value.Interface()`: panics (here: `Except.error` with the
Go runtime's panic message) when called on the zero `reflect.Value`. -/
def RVal.interfaceValue : RVal → Except String RVal
  | .invalid => .error "reflect: call of reflect.Value.Interface on zero Value"
  | v => .ok v

/-- Models `reflect.Type.String()` for the types of the value universe, used
for the assignability check of `processAttrBind`. -/
def RVal.typeDesc : RVal → String
  | .invalid => "<invalid>"
  | .vstr _ => "string"
  | .vint _ => "int"
  | .vbool _ => "bool"
  | .vfunc _ _ _ => "func"

/-- Models `reflect.Value.Kind() == reflect.Func`. -/
def RVal.isFunc : RVal → Bool
  | .vfunc _ _ _ => true
  | _ => false

/-- Models `reflect.Type.NumOut()` of a function value (0 for non-functions,
which the call sites never query). -/
def RVal.numOut : RVal → Nat
  | .vfunc _ _ n => n
  | _ => 0

/-- The single-quote character, written via its code point so that the
source scanner never sees a bare apostrophe. -/
def squote : Char := Char.ofNat 39

/-- Go `fmt` `%q` applied to a rune (no escaping needed for the characters
exercised here). -/
def goQuoteChar (c : Char) : String := String.mk [squote, c, squote]

/-- Go `fmt` `%q`-style double quoting of a string. -/
def goQuote (s : String) : String := "\"" ++ s ++ "\""

/-- Models the struct `objEval` (binding.go lines 219-223): the resolved
location of a model field.  The owning model (`modelRefl`, a
`reflect.Value` of the model instance) is represented by the numeric
identity `modelOid` of the model object. -/
structure ObjEval where
  fieldRefl : RVal
  modelOid : Nat
  field : String
deriving DecidableEq

/-- Models the struct `modelFieldSymbol` (binding.go lines 129-132). -/
structure ModelFieldSym where
  name : String
  eval : ObjEval
deriving DecidableEq

/-- Models `modelFieldSymbol.bindObj` (binding.go lines 134-136). -/
def ModelFieldSym.bindObj (mf : ModelFieldSym) : ObjEval := mf.eval

/-- A model object: an identity plus named fields/methods, inspected live at
lookup time.  This is the shape behind the `reflect.Value` stored in
`modelSymbolTable`. -/
structure ModelObj where
  oid : Nat
  fields : List (String × RVal)
deriving DecidableEq

/-- The `reflect.Value` held by a `modelSymbolTable`: either a typed nil
pointer (`Kind() == reflect.Ptr && IsNil()`) or an actual model object. -/
inductive ModelRV where
  | nilPtr
  | obj (m : ModelObj)
deriving DecidableEq

/-- Modelled from the spec: `evaluateObjField` (a repository helper not under
`src/`) resolves a name by inspecting a live model object's fields/methods
and returns the field's location for watching and mutation; a null/absent
model yields "not found" rather than an error. -/
def evaluateObjField (field : String) (model : ModelRV) : Option ObjEval :=
  match model with
  | .nilPtr => none
  | .obj m => (m.fields.lookup field).map fun v => ⟨v, m.oid, field⟩

/-- Result of a Go function invocation: the returned `reflect.Value`, an
error, and whether the underlying Go function body actually ran (`invoked`
instruments the side effect of calling into user code, which the pure
embedding needs in order to state "the callable is not invoked"). -/
structure CallRes where
  v : RVal
  err : Option String
  invoked : Bool
deriving DecidableEq

/-- Modelled from the spec: `callFunc` (a repository helper not under `src/`)
invokes a Go function value with the given arguments.  A call to a function
with no return value yields the zero `reflect.Value` and no error; an arity
mismatch is an invocation error and the function body does not run. -/
def callFunc (fenv : FnEnv) (fn : RVal) (args : List RVal) : CallRes :=
  match fn with
  | .vfunc fid numIn numOut =>
    if args.length = numIn then
      if numOut = 0 then ⟨.invalid, none, true⟩
      else ⟨fenv fid args, none, true⟩
    else ⟨.invalid, some "wrong number of arguments", false⟩
  | _ => ⟨.invalid, some "not a function", false⟩

/-- Models the `scopeSymbol` interface (binding.go lines 37-40) with its two
implementations `funcSymbol` (name + function value) and `modelFieldSymbol`. -/
inductive ScopeSymbol where
  | funcSym (name : String) (fn : RVal)
  | modelField (mf : ModelFieldSym)
deriving DecidableEq

/-- Models `funcSymbol.value` and `modelFieldSymbol.value`
(binding.go lines 104-106 and 138-140): both always succeed. -/
def ScopeSymbol.value : ScopeSymbol → RVal × Option String
  | .funcSym _ fn => (fn, none)
  | .modelField mf => (mf.eval.fieldRefl, none)

/-- Models `funcSymbol.call` (binding.go lines 108-114) and
`modelFieldSymbol.call` (lines 142-153): a model field that is not a
function cannot be called; call errors are wrapped with the symbol's name. -/
def ScopeSymbol.call (fenv : FnEnv) : ScopeSymbol → List RVal → CallRes
  | .funcSym name fn, args =>
    let r := callFunc fenv fn args
    match r.err with
    | some e => ⟨r.v, some (goQuote name ++ ": " ++ e), r.invoked⟩
    | none => r
  | .modelField mf, args =>
    if mf.eval.fieldRefl.isFunc then
      let r := callFunc fenv mf.eval.fieldRefl args
      match r.err with
      | some e => ⟨r.v, some (goQuote mf.name ++ ": " ++ e), r.invoked⟩
      | none => r
    else ⟨.invalid, some ("Cannot call " ++ goQuote mf.name ++ ", it\x27s not a method."), false⟩

/-- Models the `ok := sym.(bindable)` type assertion (binding.go line 275):
only `modelFieldSymbol` implements `bindable`. -/
def ScopeSymbol.asBindable : ScopeSymbol → Option ModelFieldSym
  | .funcSym _ _ => none
  | .modelField mf => some mf

/-- Models the `symbolTable` interface (binding.go lines 42-44) with its two
implementations `mapSymbolTable` (helpers) and `modelSymbolTable`. -/
inductive SymbolTable where
  | map (m : List (String × ScopeSymbol))
  | model (mv : ModelRV)

/-- Models `modelSymbolTable.lookup` (binding.go lines 155-168): a nil
pointer model yields "not found"; otherwise the live model object is
inspected via `evaluateObjField`. -/
def modelSymbolTable.lookup (mv : ModelRV) (symbol : String) : Option ScopeSymbol :=
  match mv with
  | .nilPtr => none
  | .obj m =>
    match evaluateObjField symbol (.obj m) with
    | some eval => some (.modelField ⟨symbol, eval⟩)
    | none => none

/-- Models `mapSymbolTable.lookup` (binding.go lines 77-80) and dispatches
`symbolTable.lookup` over the two implementations. -/
def SymbolTable.lookup : SymbolTable → String → Option ScopeSymbol
  | .map m, symbol => m.lookup symbol
  | .model mv, symbol => modelSymbolTable.lookup mv symbol

/-- Models the struct `scope` (binding.go lines 46-48): an ordered list of
symbol tables. -/
structure Scope where
  symTables : List SymbolTable

/-- Models `newScope` (binding.go lines 50-52). -/
def newScope : Scope := ⟨[]⟩

/-- Models `scope.lookup` (binding.go lines 54-65): first match over the
tables in order; absence across all tables is an error naming the symbol. -/
def Scope.lookup (s : Scope) (symbol : String) : Except String ScopeSymbol :=
  match s.symTables.findSome? (fun st => st.lookup symbol) with
  | some sym => .ok sym
  | none => .error ("Unable to find symbol " ++ goQuote symbol ++ " in the scope")

/-- Models `scope.merge` (binding.go lines 67-71): appends the target's
tables after the receiver's. -/
def Scope.merge (s target : Scope) : Scope := ⟨s.symTables ++ target.symTables⟩

/-- Models `bindScope.clone` (binding.go lines 312-316): a fresh scope with a
shallow copy of the table list. -/
def Scope.clone (s : Scope) : Scope := newScope.merge s

/-- Models `newModelScope` (binding.go lines 170-176): a nil `interface`
model contributes no table at all; any other model (including a typed nil
pointer) contributes a `modelSymbolTable`. -/
def newModelScope (model : Option ModelRV) : Scope :=
  match model with
  | none => ⟨[]⟩
  | some mv => ⟨[.model mv]⟩

/-! ### Go string helpers

`binding.go` uses `strings.Split`, `strings.TrimSpace`, `strings.HasPrefix`
and `strings.Join`.  They are re-implemented here over character lists (with
a fuel argument where the recursion consumes a multi-character separator) so
that every definition is structurally recursive and kernel-computable. -/

/-- Core of Go `strings.Split`: split a character list on a non-empty
separator occurrence; `fuel` bounds the recursion depth (one unit per
consumed character is always enough). -/
def splitCharsF (sep : List Char) : Nat → List Char → List (List Char)
  | _, [] => [[]]
  | 0, l => [l]
  | fuel + 1, c :: cs =>
    if sep.isPrefixOf (c :: cs) then
      [] :: splitCharsF sep fuel ((c :: cs).drop sep.length)
    else
      match splitCharsF sep fuel cs with
      | [] => [[c]]
      | p :: ps => (c :: p) :: ps

/-- Models Go `strings.Split` (every use in `binding.go` has a non-empty
separator). -/
def goSplit (s sep : String) : List String :=
  if sep.data = [] then [s]
  else (splitCharsF sep.data s.data.length s.data).map String.mk

/-- Models Go `strings.TrimSpace` on a character list. -/
def trimChars (cs : List Char) : List Char :=
  ((cs.dropWhile Char.isWhitespace).reverse.dropWhile Char.isWhitespace).reverse

/-- Models Go `strings.TrimSpace`. -/
def goTrimSpace (s : String) : String := String.mk (trimChars s.data)

/-- Models Go `strings.HasPrefix`. -/
def goHasPrefix (s pre : String) : Bool := pre.data.isPrefixOf s.data

/-! ### Expression AST and literal parsing -/

/-- Models the expression-type enumeration used by `evaluateRec`'s `switch`
(`ValueExpr` for bare references, `CallExpr` for call expressions). -/
inductive ExprType where
  | ValueExpr
  | CallExpr
deriving DecidableEq

/-- Models the parsed expression node `expr`: a name, an expression type and
the ordered child-expression arguments. -/
inductive Expr where
  | mk (name : String) (typ : ExprType) (args : List Expr)

/-- Name of an expression node. -/
def Expr.name : Expr → String
  | .mk n _ _ => n

/-- Type of an expression node. -/
def Expr.typ : Expr → ExprType
  | .mk _ t _ => t

/-- Arguments of an expression node. -/
def Expr.args : Expr → List Expr
  | .mk _ _ a => a

/-- Accumulates the decimal digits of a numeric literal. -/
def digitsToNat (acc : Nat) : List Char → Nat
  | [] => acc
  | c :: cs => digitsToNat (acc * 10 + (c.toNat - 48)) cs

/-- Modelled from the spec: `parseExpr` (the literal parser of the repo's
expression-parser file, not under `src/`).  The grammar has language-native
numeric, string (single- or double-quoted) and boolean literals; anything
else is not a literal.  Mirrors the Go signature
`(litVal interface, isLiteral bool, er error)` as a triple, with the
`reflect.ValueOf` conversion of the literal value folded in. -/
def parseExpr (s : String) : RVal × Bool × Option String :=
  if s = "true" then (.vbool true, true, none)
  else if s = "false" then (.vbool false, true, none)
  else
    match s.data with
    | [] => (.invalid, false, none)
    | c :: rest =>
      if c = '"' ∨ c = squote then
        if rest ≠ [] ∧ rest.getLast? = some c then
          (.vstr (String.mk rest.dropLast), true, none)
        else (.invalid, true, some ("unterminated string literal " ++ s))
      else if c = '-' ∧ rest ≠ [] ∧ rest.all Char.isDigit then
        (.vint (-(Int.ofNat (digitsToNat 0 rest))), true, none)
      else if (c :: rest).all Char.isDigit then
        (.vint (Int.ofNat (digitsToNat 0 (c :: rest))), true, none)
      else (.invalid, false, none)

/-- Modelled from the spec: `isValidExprChar` (restricted character set for
identifiers used as attribute-bind field names and DOM-bind output names;
any other character is a parse error). -/
def isValidExprChar (c : Char) : Bool :=
  c.isAlphanum || c = '_' || c = '.'

/-! ### The expression evaluator (`bindScope.evaluateRec`) -/

/-- Result of `evaluateRec` (binding.go line 234): the Go named returns
`(v, blist, err)` plus the instrumentation field `calls`, which records, in
order, the names of the symbols whose underlying Go function was actually
invoked during evaluation (the observable side effects of calling into user
code). -/
structure EvalRes where
  v : RVal
  blist : List ModelFieldSym
  err : Option String
  calls : List String
deriving DecidableEq

/-- Result of the argument loop of `evaluateRec` (binding.go lines 248-257):
the evaluated argument values, the accumulated bindables of the completed
arguments, the first error (if any), and the invocation trace. -/
structure ArgsRes where
  vals : List RVal
  blist : List ModelFieldSym
  err : Option String
  calls : List String
deriving DecidableEq

mutual

/-- Models `bindScope.evaluateRec` (binding.go lines 234-279): literal check
first (a parse error aborts, a literal returns directly with no bindables),
then the fail-fast argument loop, then symbol lookup, then value read or
call, then appending the symbol itself to the bindables when it is
watchable. -/
def evaluateRec (fenv : FnEnv) (b : Scope) : Expr → EvalRes
  | .mk name typ args =>
    match parseExpr name with
    | (_, _, some er) => ⟨.invalid, [], some er, []⟩
    | (litVal, true, none) => ⟨litVal, [], none, []⟩
    | (_, false, none) =>
      let ar := evalArgs fenv b args
      match ar.err with
      | some er => ⟨.invalid, ar.blist, some er, ar.calls⟩
      | none =>
        match b.lookup name with
        | .error er => ⟨.invalid, ar.blist, some er, ar.calls⟩
        | .ok sym =>
          let r : CallRes :=
            match typ with
            | .ValueExpr => ⟨sym.value.1, sym.value.2, false⟩
            | .CallExpr => sym.call fenv ar.vals
          let calls := ar.calls ++ (if r.invoked then [name] else [])
          match r.err with
          | some er => ⟨r.v, ar.blist, some er, calls⟩
          | none =>
            match sym.asBindable with
            | some mf => ⟨r.v, ar.blist ++ [mf], none, calls⟩
            | none => ⟨r.v, ar.blist, none, calls⟩

/-- Models the argument loop of `evaluateRec` (binding.go lines 248-257):
arguments are evaluated left to right; the first error aborts the loop,
discarding that argument's bindables but keeping those of the completed
arguments and the invocation trace up to and including the failing
argument. -/
def evalArgs (fenv : FnEnv) (b : Scope) : List Expr → ArgsRes
  | [] => ⟨[], [], none, []⟩
  | e :: es =>
    let r := evaluateRec fenv b e
    match r.err with
    | some er => ⟨[], [], some er, r.calls⟩
    | none =>
      let rest := evalArgs fenv b es
      ⟨r.v :: rest.vals, r.blist ++ rest.blist, rest.err, r.calls ++ rest.calls⟩

end

/-! ### The bind-string parser (`parse`) -/

/-- Splits a character list at the first occurrence of `c`, returning the
parts before and after it. -/
def splitFirstChar (c : Char) : List Char → Option (List Char × List Char)
  | [] => none
  | x :: xs =>
    if x = c then some ([], xs)
    else (splitFirstChar c xs).map fun p => (x :: p.1, p.2)

/-- Splits a character list on the commas that sit at parenthesis depth 0
and outside string literals (used to separate call arguments). -/
def splitTopComma : Nat → Option Char → List Char → List Char → List (List Char)
  | _, _, acc, [] => [acc.reverse]
  | depth, qs, acc, c :: cs =>
    match qs with
    | some q =>
      if c = q then splitTopComma depth none (c :: acc) cs
      else splitTopComma depth (some q) (c :: acc) cs
    | none =>
      if c = ',' ∧ depth = 0 then acc.reverse :: splitTopComma 0 none [] cs
      else if c = '(' then splitTopComma (depth + 1) none (c :: acc) cs
      else if c = ')' then splitTopComma (depth - 1) none (c :: acc) cs
      else if c = '"' ∨ c = squote then splitTopComma depth (some c) (c :: acc) cs
      else splitTopComma depth none (c :: acc) cs

/-- Shape of a syntax error: names the offending fragment and the original
bind-string. -/
def synErr (frag orig : String) : String :=
  "invalid expression " ++ goQuote frag ++ " in " ++ goQuote orig

/-- Modelled from the spec: the recursive core of `parse` (the repo's
expression parser, not under `src/`).  Grammar: literals, bare identifiers,
and call expressions `name(arg, arg, ...)` with nested arguments; a syntax
error names the offending fragment and the original bind-string.  `fuel`
bounds the nesting depth (the character count of the original string always
suffices). -/
def parseAux (orig : String) : Nat → List Char → Except String Expr
  | 0, cs => .error (synErr (String.mk cs) orig)
  | fuel + 1, cs =>
    let t := trimChars cs
    if t = [] then .error (synErr (String.mk cs) orig)
    else if (parseExpr (String.mk t)).2.1 then .ok (.mk (String.mk t) .ValueExpr [])
    else if t.getLast? = some ')' then
      match splitFirstChar '(' t with
      | none => .error (synErr (String.mk t) orig)
      | some (namePart, afterParen) =>
        let inner := afterParen.dropLast
        let name := trimChars namePart
        if name = [] then .error (synErr (String.mk t) orig)
        else if trimChars inner = [] then .ok (.mk (String.mk name) .CallExpr [])
        else do
          let args ← (splitTopComma 0 none [] inner).mapM (parseAux orig fuel)
          return .mk (String.mk name) .CallExpr args
    else if t.any (fun c => c = '(' ∨ c = ')') then .error (synErr (String.mk t) orig)
    else .ok (.mk (String.mk t) .ValueExpr [])

/-- Modelled from the spec: `parse` turns a bind-string fragment into an
expression AST or a syntax error. -/
def parse (s : String) : Except String Expr :=
  parseAux s (s.data.length + 1) s.data

/-! ### `bindScope.evaluate` and `evaluateBindString` -/

/-- Models `bindStringPanic` (binding.go lines 281-283): the panic message
appends the processed bind string to the error. -/
def bindStringMsg (mess bindstring : String) : String :=
  mess ++ ", while processing bind string " ++ goQuote bindstring ++ "."

/-- Result of `bindScope.evaluate` (binding.go line 286): the Go named
returns `(root, blist, value, err)`; `value` is a `nil` `interface` value
(`none`) unless the evaluation result is valid and interfaceable. -/
structure EvaluateRes where
  root : Option Expr
  blist : List ModelFieldSym
  value : Option RVal
  err : Option String

/-- Models `bindScope.evaluate` (binding.go lines 286-301): parse, evaluate
recursively, and convert the result to an `interface` value only when it is
valid and can be interfaced. -/
def evaluate (fenv : FnEnv) (b : Scope) (bstr : String) : EvaluateRes :=
  match parse bstr with
  | .error er => ⟨none, [], none, some er⟩
  | .ok root =>
    let r := evaluateRec fenv b root
    match r.err with
    | some er => ⟨some root, r.blist, none, some er⟩
    | none =>
      if r.v.isValid ∧ r.v.canInterface then ⟨some root, r.blist, some r.v, none⟩
      else ⟨some root, r.blist, none, none⟩

/-- Models `bindScope.evaluateBindString` (binding.go lines 303-310): like
`evaluate` but a failure panics via `bindStringPanic` with the evaluated
string. -/
def evaluateBindString (fenv : FnEnv) (b : Scope) (bstr : String) :
    Except String (Option Expr × List ModelFieldSym × Option RVal) :=
  let r := evaluate fenv b bstr
  match r.err with
  | some er => .error (bindStringMsg er bstr)
  | none => .ok (r.root, r.blist, r.value)

/-! ### The binding engine and the reactive watcher -/

/-- Models the struct `Binding` (binding.go lines 178-185).  The external
custom-element manager (`tm`) is represented by the set of registered custom
tag names, the DOM binder registry (`domBinders`) by the set of registered
binder names, and the helper table (`helpers`) by its entries. -/
structure Binding where
  customTags : List String
  domBinders : List String
  helpers : List (String × ScopeSymbol)

/-- Models the base scope set up by `NewBindEngine` (binding.go line 194):
a single table holding the helpers. -/
def Binding.scope (b : Binding) : Scope := ⟨[.map b.helpers]⟩

/-- One reactive watch subscription, keyed on the owning model instance and
the watched field name (binding.go lines 323-328). -/
structure WatchSub where
  modelOid : Nat
  field : String
deriving DecidableEq

/-- Models `Binding.watchModel` (binding.go lines 318-337): one `watch`
subscription per bindable, keyed on the bindable's owning model and field.
The behavior of the installed callback is modelled separately by
`watchModelCallback`. -/
def watchModel (binds : List ModelFieldSym) : List WatchSub :=
  binds.map fun bi => ⟨bi.bindObj.modelOid, bi.bindObj.field⟩

/-- Models the closure installed by `watchModel` (binding.go lines 330-334):
on a field mutation it re-runs `evaluateRec` on the same root expression and
scope, discards the returned error, and calls `reflect.Value.Interface` on
the result value before handing it to the update callback.  An
`Except.error` is a Go panic inside the callback. -/
def watchModelCallback (fenv : FnEnv) (bs : Scope) (root : Expr) : Except String RVal :=
  let r := evaluateRec fenv bs root
  r.v.interfaceValue

/-! ### `processDomBind` and `processAttrBind` -/

/-- First character of a field/output name that falls outside the restricted
identifier set, if any (the per-character validation loops of
`processAttrBind` and `processDomBind`). -/
def firstInvalidChar (s : String) : Option Char :=
  s.data.find? fun c => !isValidExprChar c

/-- First invalid character over a list of (already trimmed) output names,
together with the output it occurs in. -/
def firstInvalidOut (outs : List String) : Option (Char × String) :=
  outs.findSome? fun o => (firstInvalidChar o).map fun c => (c, o)

/-- Models the output-split part of `processDomBind` (binding.go lines
354-370): split the bind string on `->`; with no arrow the whole string is
the expression and there are no outputs; otherwise the expression is the
trimmed first part and the outputs are the trimmed comma-split of the
second part, each validated against the restricted character set (an
invalid character panics quoting that output name). -/
def domBindSplit (bstr : String) : Except String (String × List String) :=
  match goSplit bstr "->" with
  | [] => .ok (bstr, [])
  | [_] => .ok (bstr, [])
  | p0 :: p1 :: _ =>
    let outs := (goSplit p1 ",").map goTrimSpace
    match firstInvalidOut outs with
    | some co => .error (bindStringMsg ("invalid character " ++ goQuoteChar co.1) co.2)
    | none => .ok (goTrimSpace p0, outs)

/-- The observable outcome of a successful `processDomBind` (binding.go
lines 339-410): which binder ran, with which selector arguments and output
names, the evaluation results, whether the binder's `Watch` (two-way
write-back) was installed, the reactive subscriptions installed (empty for
a `once` bind), and the diagnostic metadata string. -/
structure DomBindRun where
  elemId : Nat
  binderName : String
  args : List String
  outputs : List String
  binds : List ModelFieldSym
  value : Option RVal
  watchInstalled : Bool
  watchModelSubs : List WatchSub
  metadata : String

/-- Models `processDomBind` (binding.go lines 339-410): selector split and
binder lookup, output split and validation, bind-string evaluation, `Watch`
installation exactly when the evaluation produced a single bindable, then
`Bind`/`Update` and (unless `once`) the reactive watches. -/
def processDomBind (fenv : FnEnv) (b : Binding) (astr bstr : String) (elemId : Nat)
    (bs : Scope) (once : Bool) : Except String DomBindRun :=
  match goSplit astr "-" with
  | [] => .error "Illegal \"bind-\"."
  | [_] => .error "Illegal \"bind-\"."
  | _ :: bname :: rest =>
    if b.domBinders.contains bname then
      let args := rest
      match domBindSplit bstr with
      | .error e => .error e
      | .ok (bexpr, outputs) =>
        match evaluateBindString fenv bs bexpr with
        | .error e => .error e
        | .ok (_, binds, v) =>
          let metadata := astr ++ " = " ++ goQuote bstr
          .ok ⟨elemId, bname, args, outputs, binds, v, decide (binds.length = 1),
               if once then [] else watchModel binds, metadata⟩
    else .error ("Dom binder " ++ goQuote bname ++ " does not exist.")

/-- One observable effect of `processAttrBind` (binding.go lines 412-452):
either the assignment of the evaluated value to a field of the custom tag's
model, or the installation of the reactive watches for one field bind. -/
inductive AttrBindEffect where
  | setField (modelOid : Nat) (field : String) (value : RVal)
  | installWatch (field : String) (subs : List WatchSub)
deriving DecidableEq

/-- Models one iteration of the `processAttrBind` loop (binding.go lines
418-450): split `field: expr` on `:`, trim both parts, validate the field
name's characters (an invalid character panics quoting the field name),
evaluate the expression, resolve the target field on the tag's model, check
assignability, set the field and (unless `once`) install the reactive
watches. -/
def processOneAttrBind (fenv : FnEnv) (bstr : String) (bs : Scope) (once : Bool)
    (tModel : ModelRV) (fb : String) : Except String (List AttrBindEffect) :=
  match goSplit fb ":" with
  | [f0, v0] =>
    let field := goTrimSpace f0
    let valuestr := goTrimSpace v0
    match firstInvalidChar field with
    | some c => .error (bindStringMsg ("invalid character " ++ goQuoteChar c) field)
    | none =>
      match evaluateBindString fenv bs valuestr with
      | .error e => .error e
      | .ok (_, binds, v) =>
        match evaluateObjField field tModel with
        | none => .error (bindStringMsg ("No such field " ++ goQuote field ++ " to bind to") bstr)
        | some oe =>
          match v with
          | none =>
            -- reflect.TypeOf of a nil interface value is nil; calling
            -- AssignableTo on it faults at runtime
            .error "runtime error: invalid memory address or nil pointer dereference"
          | some vv =>
            if vv.typeDesc = oe.fieldRefl.typeDesc then
              .ok ([.setField oe.modelOid field vv] ++
                   if once then [] else [.installWatch field (watchModel binds)])
            else
              .error (bindStringMsg ("Unassignable, incompatible types " ++
                goQuote vv.typeDesc ++ " and " ++ goQuote oe.fieldRefl.typeDesc ++
                " of the model field and the value") bstr)
  | _ => .error (bindStringMsg "There should be one \":\" in each attribute bind" bstr)

/-- Models the `fbinds` loop of `processAttrBind` (binding.go lines
413-417): the field binds are processed in order, a trailing empty fragment
is skipped, and a panic in any iteration aborts the whole call. -/
def processAttrBindLoop (fenv : FnEnv) (bstr : String) (bs : Scope) (once : Bool)
    (tModel : ModelRV) : List String → Except String (List AttrBindEffect)
  | [] => .ok []
  | fb :: rest =>
    if rest = [] ∧ fb = "" then .ok []
    else
      match processOneAttrBind fenv bstr bs once tModel fb with
      | .error e => .error e
      | .ok effs =>
        match processAttrBindLoop fenv bstr bs once tModel rest with
        | .error e => .error e
        | .ok more => .ok (effs ++ more)

/-- Models `processAttrBind` (binding.go lines 412-452).  As in the source,
the `astr` attribute name and the element take no part in the processing;
`elemId` is kept for shape. -/
def processAttrBind (fenv : FnEnv) (b : Binding) (astr bstr : String) (elemId : Nat)
    (bs : Scope) (once : Bool) (tModel : ModelRV) : Except String (List AttrBindEffect) :=
  processAttrBindLoop fenv bstr bs once tModel (goSplit bstr ";")

/-! ### The prevention marker and `wrapBindCall`

DOM attribute state is reified as `DomState`: the attributes of every
element (keyed by element identity and attribute name, with jQuery's
`Attr` returning the empty string for an absent attribute) plus a log of
bind-function applications, which instruments the side effect of actually
running a scheduled bind so that "applied exactly once" can be stated. -/

/-- The mutable DOM attribute state plus the application log. -/
structure DomState where
  attrs : List (Nat × String × String)
  log : List (Nat × String)
deriving DecidableEq

/-- Sets (or replaces) one attribute in the attribute store. -/
def setAttrList : List (Nat × String × String) → Nat → String → String → List (Nat × String × String)
  | [], e, n, v => [(e, n, v)]
  | (e2, n2, v2) :: rest, e, n, v =>
    if e2 = e ∧ n2 = n then (e, n, v) :: rest
    else (e2, n2, v2) :: setAttrList rest e n v

/-- Models `elem.SetAttr`. -/
def DomState.setAttr (s : DomState) (eid : Nat) (name v : String) : DomState :=
  ⟨setAttrList s.attrs eid name v, s.log⟩

/-- Models jQuery `elem.Attr`: the empty string when the attribute is
absent. -/
def DomState.getAttr (s : DomState) (eid : Nat) (name : String) : String :=
  match s.attrs.find? (fun a => a.1 = eid ∧ a.2.1 = name) with
  | some a => a.2.2
  | none => ""

/-- Models `preventBinding` (binding.go lines 454-456): sets the reserved
per-element, per-attribute marker `wade-rsvd-<bindattr>` to `"t"`. -/
def preventBinding (s : DomState) (eid : Nat) (bindattr : String) : DomState :=
  s.setAttr eid ("wade-rsvd" ++ "-" ++ bindattr) "t"

/-- Models `bindingPrevented` (binding.go lines 472-475): the element is
marked either by the catch-all `wade-rsvd-all` marker or by the marker for
this bind attribute. -/
def bindingPrevented (s : DomState) (eid : Nat) (bindattr : String) : Bool :=
  s.getAttr eid ("wade-rsvd" ++ "-" ++ "all") = "t" ||
    s.getAttr eid ("wade-rsvd" ++ "-" ++ bindattr) = "t"

/-- Models `wrapBindCall` (binding.go lines 477-484): the scheduled task
checks the prevention marker before running the bind function `fn` (a
closure over the element, the attribute name and the bind string, here a
state transformer) and sets the marker after running it. -/
def wrapBindCall (eid : Nat) (bindattr bindstr : String) (fn : DomState → DomState) :
    DomState → DomState :=
  fun s =>
    if bindingPrevented s eid bindattr then s
    else preventBinding (fn s) eid bindattr

/-! ### The tree binder (`bindPrepare`, `bindWithScope`, `Bind`) -/

/-- An element of the DOM tree: identity, tag name, attribute snapshot,
whether the element is still attached to the document (`jqExists`), and the
child elements. -/
inductive Elem where
  | mk (id : Nat) (tag : String) (attrs : List (String × String)) (connected : Bool)
      (children : List Elem)

/-- Identity of an element. -/
def Elem.id : Elem → Nat
  | .mk i _ _ _ _ => i

/-- Tag name of an element. -/
def Elem.tag : Elem → String
  | .mk _ t _ _ _ => t

/-- Attribute snapshot of an element. -/
def Elem.attrs : Elem → List (String × String)
  | .mk _ _ a _ _ => a

/-- Models `jqExists`. -/
def Elem.connected : Elem → Bool
  | .mk _ _ _ c _ => c

/-- Children of an element. -/
def Elem.children : Elem → List Elem
  | .mk _ _ _ _ cs => cs

/-- A scheduled task, abstracted to its observable identity: a bind task
(the `wrapBindCall`-wrapped closure scheduled into `bindTasks` for one
element and one bind attribute) or a custom-element task (the expansion
closure scheduled into `customElemTasks` for one custom-tag element). -/
inductive Task where
  | bind (elemId : Nat) (bindattr bindstr : String)
  | custom (elemId : Nat)
deriving DecidableEq

/-- Discriminates the two task kinds. -/
def Task.isBind : Task → Bool
  | .bind _ _ _ => true
  | .custom _ => false

/-- Models the attribute loop of `bindPrepare` (binding.go lines 521-544):
a `bind` attribute requires a custom tag (panic otherwise) and schedules an
attribute-bind task; an attribute with the `bind-` prefix on a still
existing element schedules a DOM-bind task, which is illegal on a custom
tag (panic).  Go iterates the attribute map in unspecified order; the
snapshot list order stands in for it (the claims proved below do not
depend on the iteration order).  The panic messages are abbreviated; their
wording is not load-bearing for any claim. -/
def bindPrepareAttrs (b : Binding) (eid : Nat) (tag : String) (connected isCustom : Bool) :
    List (String × String) → Except String (List Task)
  | [] => .ok []
  | (name, bstr) :: rest =>
    if name = "bind" then
      if isCustom then
        match bindPrepareAttrs b eid tag connected isCustom rest with
        | .error er => .error er
        | .ok ts => .ok (.bind eid name bstr :: ts)
      else
        .error ("Processing bind string " ++ name ++ "=" ++ goQuote bstr ++ ": Element " ++
          tag ++ " hasn\x27t been registered as a custom element.")
    else if goHasPrefix name "bind-" ∧ connected then
      if isCustom then
        .error ("Processing bind string " ++ name ++ " = " ++ goQuote bstr ++
          ": Dom binding is not allowed for custom element tags.")
      else
        match bindPrepareAttrs b eid tag connected isCustom rest with
        | .error er => .error er
        | .ok ts => .ok (.bind eid name bstr :: ts)
    else bindPrepareAttrs b eid tag connected isCustom rest

mutual

/-- The per-child iteration of the `elems` loop of `bindPrepare`, in
order, concatenating each element's tasks onto the running result lists. -/
def bindPrepareList (b : Binding) (es : List Elem) (bs : Scope) (once : Bool) :
    Except String (List Task × List Task) :=
  match es with
  | [] => .ok ([], [])
  | e :: rest =>
    match bindPrepareElem b e bs once true with
    | .error er => .error er
    | .ok r =>
      match bindPrepareList b rest bs once with
      | .error er => .error er
      | .ok rr => .ok (r.1 ++ rr.1, r.2 ++ rr.2)

/-- One iteration of the `elems` loop of `bindPrepare` (binding.go lines
504-565): determine whether the element is a registered custom tag, clone
the scope for it, process its attributes, then (when `recurse`, i.e.
`!bindrelem || idx > 0`) either schedule a custom-element task (custom
tags) or recurse into the children with the *original* scope, merging the
recursive task lists (bind tasks after this element's own, custom tasks
appended).  The source's recursive call `bindPrepare(elem, bs, once, false)`
is exactly the loop over `elem`'s children (the `bindrelem = false` branch
of `bindPrepare` below), so it appears here as `bindPrepareList` on the
children. -/
def bindPrepareElem (b : Binding) (e : Elem) (bs : Scope) (once recurse : Bool) :
    Except String (List Task × List Task) :=
  match e with
  | .mk eid tag attrs connected children =>
    let isCustom := b.customTags.contains tag
    let _ebs := bs.clone
    match bindPrepareAttrs b eid tag connected isCustom attrs with
    | .error er => .error er
    | .ok bts =>
      if recurse then
        if isCustom then .ok (bts, [.custom eid])
        else
          match bindPrepareList b children bs once with
          | .error er => .error er
          | .ok r => .ok (bts ++ r.1, r.2)
      else .ok (bts, [])

end

/-- Models `Binding.bindPrepare` (binding.go lines 487-568).  The element
list is the root itself (when `bindrelem`) followed by its immediate
children; the `!bindrelem || idx > 0` condition of the source means that
the root element at index 0 gets only its attributes processed
(`recurse = false`), while every child is fully processed
(`recurse = true`).  Returns the ordered bind-task and custom-element-task
lists without executing any task. -/
def bindPrepare (b : Binding) (relem : Elem) (bs : Scope) (once bindrelem : Bool) :
    Except String (List Task × List Task) :=
  if bindrelem then
    match bindPrepareElem b relem bs once false with
    | .error er => .error er
    | .ok r0 =>
      match bindPrepareList b relem.children bs once with
      | .error er => .error er
      | .ok rc => .ok (r0.1 ++ rc.1, r0.2 ++ rc.2)
  else bindPrepareList b relem.children bs once

/-- Models `Binding.bindWithScope` (binding.go lines 590-600): run
`bindPrepare`, then execute every bind task, then every custom-element
task.  The returned list is the task execution order. -/
def bindWithScope (b : Binding) (relem : Elem) (once bindrelem : Bool) (s : Scope) :
    Except String (List Task) :=
  match bindPrepare b relem s once bindrelem with
  | .error er => .error er
  | .ok r => .ok (r.1 ++ r.2)

/-- The scope constructed by `Binding.Bind` (binding.go lines 571-574): the
model's scope merged with the engine's base (helper) scope, in that
order. -/
def Bind_scope (b : Binding) (model : Option ModelRV) : Scope :=
  (newModelScope model).merge b.scope

/-- Models `Binding.Bind` (binding.go lines 570-575). -/
def Bind (b : Binding) (relem : Elem) (model : Option ModelRV) (once bindrelem : Bool) :
    Except String (List Task) :=
  bindWithScope b relem once bindrelem (Bind_scope b model)

/-! ### Sample data used by the concrete witnesses -/

/-- A function environment where every closure returns the zero value. -/
def sampleFnEnv : FnEnv := fun _ _ => .invalid

/-- A helper table with a single registered helper `trim` (closure 1, one
argument, one return value). -/
def sampleHelpers : List (String × ScopeSymbol) :=
  [("trim", .funcSym "trim" (.vfunc 1 1 1))]

/-- An engine whose base scope holds `sampleHelpers`, with no custom tags
and no DOM binders. -/
def sampleBinding : Binding := ⟨[], [], sampleHelpers⟩

/-- An engine with a helper named `x`, shadowable by a model field `x`. -/
def shadowBinding : Binding := ⟨[], [], [("x", .funcSym "x" (.vfunc 2 1 1))]⟩

/-- A model object with the single plain field `x`. -/
def shadowModel : ModelObj := ⟨1, [("x", .vint 7)]⟩

/-- A model object whose method `go` (closure 7) returns nothing. -/
def voidModel : ModelObj := ⟨2, [("go", .vfunc 7 0 0)]⟩

/-- A scope over `voidModel`. -/
def voidScope : Scope := ⟨[.model (.obj voidModel)]⟩

/-- A model object with a boolean field `done`. -/
def doneModel : ModelObj := ⟨1, [("done", .vbool true)]⟩

/-- A scope over `doneModel`. -/
def doneScope : Scope := ⟨[.model (.obj doneModel)]⟩

/-- An engine with only the DOM binder `value` registered. -/
def valueBinding : Binding := ⟨[], ["value"], []⟩

/-- The outcome of `processDomBind` for `bind-value="done"` against
`doneScope` (computed by the witness below). -/
def doneDomRun : DomBindRun :=
  ⟨5, "value", [], [], [⟨"done", ⟨.vbool true, 1, "done"⟩⟩], some (.vbool true), true,
   [⟨1, "done"⟩], "bind-value = " ++ goQuote "done"⟩

/-- A model whose field `f` holds the non-function value `1` (the state
after an external mutation replaced the method the expression was bound
to). -/
def mutatedModel : ModelObj := ⟨1, [("f", .vint 1)]⟩

/-- A scope over `mutatedModel`. -/
def mutatedScope : Scope := ⟨[.model (.obj mutatedModel)]⟩

/-- The root expression `f()` of a watched binding. -/
def callFRoot : Expr := .mk "f" .CallExpr []

/-- An empty DOM state. -/
def emptyDom : DomState := ⟨[], []⟩

/-- A bind function that records its application in the log (the observable
effect of `processDomBind`/`processAttrBind` running for element 1 and
attribute `bind-html`). -/
def sampleBindFn : DomState → DomState :=
  fun s => ⟨s.attrs, s.log ++ [(1, "bind-html")]⟩

/-- An engine with a custom tag `t-foo` and DOM binders `value`, `html`. -/
def treeBinding : Binding := ⟨["t-foo"], ["value", "html"], []⟩

/-- A plain child with a DOM bind attribute. -/
def spanElem : Elem := .mk 1 "span" [("bind-html", "x")] true []

/-- A custom-tag child with an attribute bind. -/
def fooElem : Elem := .mk 2 "t-foo" [("bind", "a: 1")] true []

/-- The sample tree: a root with a plain child and a custom-tag child. -/
def rootElem : Elem := .mk 0 "div" [] true [spanElem, fooElem]

/-- The task lists of `bindPrepare` hold only what their names promise:
bind tasks in the first list, custom-element tasks in the second. -/
def TasksOk (bt cet : List Task) : Prop :=
  (∀ t ∈ bt, t.isBind = true) ∧ (∀ t ∈ cet, t.isBind = false)

/-! ## Theorems -/

/-- Claim C2: a model-backed symbol table whose owning model is a nil
pointer reports every name as "not found" (no error, no crash), so a merged
scope of a nil model table before the helper table still resolves names
present in the helper table. -/
theorem nil_model_lookup_falls_through (b : Binding) (name : String) (sym : ScopeSymbol)
    (hhelp : b.helpers.lookup name = some sym) :
    modelSymbolTable.lookup .nilPtr name = none ∧
    Scope.lookup (Bind_scope b (some .nilPtr)) name = .ok sym := by
  refine ⟨rfl, ?_⟩
  simp [Bind_scope, newModelScope, Scope.merge, Binding.scope, Scope.lookup,
        SymbolTable.lookup, modelSymbolTable.lookup, hhelp]

/-- Witness for C2: the helper `trim` is found through a scope whose first
table is backed by a nil pointer model. -/
theorem nil_model_lookup_falls_through_witness :
    modelSymbolTable.lookup .nilPtr "trim" = none ∧
    Scope.lookup (Bind_scope sampleBinding (some .nilPtr)) "trim" =
      .ok (.funcSym "trim" (.vfunc 1 1 1)) :=
  nil_model_lookup_falls_through sampleBinding "trim" (.funcSym "trim" (.vfunc 1 1 1)) rfl

/-- Claim C9: `Bind` puts the model's symbol table before the engine's
helper table, and `scope.lookup` returns the first match, so a model field
shadows a helper of the same name for every lookup during the pass. -/
theorem model_field_shadows_helper (b : Binding) (m : ModelObj) (name : String) (v : RVal)
    (hfield : m.fields.lookup name = some v) :
    Bind_scope b (some (.obj m)) = ⟨[.model (.obj m), .map b.helpers]⟩ ∧
    Scope.lookup (Bind_scope b (some (.obj m))) name =
      .ok (.modelField ⟨name, ⟨v, m.oid, name⟩⟩) := by
  refine ⟨rfl, ?_⟩
  simp [Bind_scope, newModelScope, Scope.merge, Binding.scope, Scope.lookup,
        SymbolTable.lookup, modelSymbolTable.lookup, evaluateObjField, hfield]

/-- Witness for C9: the model field `x` shadows the helper `x`. -/
theorem model_field_shadows_helper_witness :
    Bind_scope shadowBinding (some (.obj shadowModel)) =
      ⟨[.model (.obj shadowModel), .map shadowBinding.helpers]⟩ ∧
    Scope.lookup (Bind_scope shadowBinding (some (.obj shadowModel))) "x" =
      .ok (.modelField ⟨"x", ⟨.vint 7, shadowModel.oid, "x"⟩⟩) :=
  model_field_shadows_helper shadowBinding shadowModel "x" (.vint 7) rfl

/-- Claim C4: a node whose name parses as a valid literal evaluates to the
literal's parsed value with an empty bindables list (and, a fortiori, no
invocation and no error). -/
theorem evaluateRec_literal (fenv : FnEnv) (b : Scope) (name : String) (typ : ExprType)
    (args : List Expr) (lv : RVal) (hlit : parseExpr name = (lv, true, none)) :
    evaluateRec fenv b (.mk name typ args) = ⟨lv, [], none, []⟩ := by
  simp [evaluateRec, hlit]

/-- Witness for C4: the numeric literal `5`. -/
theorem evaluateRec_literal_witness :
    evaluateRec sampleFnEnv ⟨[]⟩ (.mk "5" .ValueExpr []) = ⟨.vint 5, [], none, []⟩ :=
  evaluateRec_literal sampleFnEnv ⟨[]⟩ "5" .ValueExpr [] (.vint 5) rfl

/-- Claim C10: when evaluation of a bind string succeeds but the resulting
`reflect.Value` is invalid (e.g. a call to a model method that returns
nothing), `evaluate` returns a null value together with no error. -/
theorem evaluate_invalid_result_is_null (fenv : FnEnv) (b : Scope) (bstr : String)
    (root : Expr) (hp : parse bstr = .ok root)
    (hok : (evaluateRec fenv b root).err = none)
    (hinv : (evaluateRec fenv b root).v.isValid = false) :
    evaluate fenv b bstr = ⟨some root, (evaluateRec fenv b root).blist, none, none⟩ := by
  simp [evaluate, hp, hok, hinv, RVal.canInterface]

/-- Witness for C10: calling the void method `go()` yields a null value and
no error. -/
theorem evaluate_invalid_result_is_null_witness :
    evaluate sampleFnEnv voidScope "go()" =
      ⟨some (.mk "go" .CallExpr []), [⟨"go", ⟨.vfunc 7 0 0, 2, "go"⟩⟩], none, none⟩ :=
  evaluate_invalid_result_is_null sampleFnEnv voidScope "go()" (.mk "go" .CallExpr []) rfl rfl rfl

/-- Helper for C3: the argument loop on `pre ++ bad :: post`, where every
expression of `pre` evaluates cleanly and `bad` fails, stops at `bad`: it
keeps the bindables and invocation traces of the completed prefix plus the
failing argument's trace, and the expressions of `post` contribute
nothing. -/
theorem evalArgs_append_fail (fenv : FnEnv) (b : Scope) (pre : List Expr) (bad : Expr)
    (post : List Expr) (er : String)
    (hpre : ∀ e ∈ pre, (evaluateRec fenv b e).err = none)
    (hbad : (evaluateRec fenv b bad).err = some er) :
    evalArgs fenv b (pre ++ bad :: post) =
      ⟨pre.map (fun e => (evaluateRec fenv b e).v),
       (pre.map (fun e => (evaluateRec fenv b e).blist)).join,
       some er,
       (pre.map (fun e => (evaluateRec fenv b e).calls)).join ++
         (evaluateRec fenv b bad).calls⟩ := by
  induction pre with
  | nil => simp [evalArgs, hbad]
  | cons e es ih =>
    have he : (evaluateRec fenv b e).err = none := hpre e (by simp)
    have ih2 := ih (fun x hx => hpre x (by simp [hx]))
    simp [evalArgs, he, ih2]

/-- Claim C3: for a non-literal node, a failure in any argument aborts
`evaluateRec` immediately with that argument's error: the later arguments
are not evaluated (they contribute neither bindables nor invocations), the
node's own name is never resolved (the conclusion holds for any scope, in
particular one where the name is unbound), and the node's callable is never
invoked (the invocation trace holds only the completed arguments' calls). -/
theorem evaluateRec_arg_failfast (fenv : FnEnv) (b : Scope) (name : String) (typ : ExprType)
    (pre : List Expr) (bad : Expr) (post : List Expr) (lv : RVal) (er : String)
    (hnotlit : parseExpr name = (lv, false, none))
    (hpre : ∀ e ∈ pre, (evaluateRec fenv b e).err = none)
    (hbad : (evaluateRec fenv b bad).err = some er) :
    evaluateRec fenv b (.mk name typ (pre ++ bad :: post)) =
      ⟨.invalid,
       (pre.map (fun e => (evaluateRec fenv b e).blist)).join,
       some er,
       (pre.map (fun e => (evaluateRec fenv b e).calls)).join ++
         (evaluateRec fenv b bad).calls⟩ := by
  have h := evalArgs_append_fail fenv b pre bad post er hpre hbad
  simp [evaluateRec, hnotlit, h]

/-- Witness for C3: in `g(1, zzz, qqq)` with an empty scope, the unresolved
second argument `zzz` aborts the evaluation with its own error even though
`g` itself is unbound, and nothing is invoked. -/
theorem evaluateRec_arg_failfast_witness :
    evaluateRec sampleFnEnv ⟨[]⟩
        (.mk "g" .CallExpr
          [.mk "1" .ValueExpr [], .mk "zzz" .ValueExpr [], .mk "qqq" .ValueExpr []]) =
      ⟨.invalid, [], some ("Unable to find symbol " ++ goQuote "zzz" ++ " in the scope"), []⟩ :=
  evaluateRec_arg_failfast sampleFnEnv ⟨[]⟩ "g" .CallExpr
    [.mk "1" .ValueExpr []] (.mk "zzz" .ValueExpr []) [.mk "qqq" .ValueExpr []]
    .invalid ("Unable to find symbol " ++ goQuote "zzz" ++ " in the scope")
    rfl (by intro e he; rw [List.mem_singleton] at he; subst he; rfl) rfl

/-- Helper for C6: an attribute just set is read back. -/
theorem getAttr_setAttr (s : DomState) (eid : Nat) (n v : String) :
    (s.setAttr eid n v).getAttr eid n = v := by
  obtain ⟨attrs, log⟩ := s
  simp only [DomState.setAttr, DomState.getAttr]
  induction attrs with
  | nil => simp [setAttrList]
  | cons a rest ih =>
    obtain ⟨e2, n2, v2⟩ := a
    by_cases h : e2 = eid ∧ n2 = n
    · simp [setAttrList, h]
    · simp only [setAttrList, if_neg h, List.find?]
      have hd : (decide (e2 = eid ∧ n2 = n)) = false := by simp [h]
      simp only [hd]
      exact ih

/-- Claim C6: the task produced by `wrapBindCall` checks the per-element,
per-attribute prevention marker before running the bind function and sets
it afterwards, so running the task twice applies the bind exactly once:
the second run is a no-op on the state, and the application log gets
exactly one entry. -/
theorem wrapBindCall_applies_once (s : DomState) (eid : Nat) (battr bstr : String)
    (fn : DomState → DomState)
    (hprev : bindingPrevented s eid battr = false)
    (hlog : ∀ t, (fn t).log = t.log ++ [(eid, battr)]) :
    wrapBindCall eid battr bstr fn (wrapBindCall eid battr bstr fn s) =
      wrapBindCall eid battr bstr fn s ∧
    (wrapBindCall eid battr bstr fn (wrapBindCall eid battr bstr fn s)).log =
      s.log ++ [(eid, battr)] := by
  have h1 : wrapBindCall eid battr bstr fn s = preventBinding (fn s) eid battr := by
    simp [wrapBindCall, hprev]
  have h2 : bindingPrevented (preventBinding (fn s) eid battr) eid battr = true := by
    simp [bindingPrevented, preventBinding, getAttr_setAttr]
  have h3 : wrapBindCall eid battr bstr fn (preventBinding (fn s) eid battr) =
      preventBinding (fn s) eid battr := by
    simp [wrapBindCall, h2]
  refine ⟨by rw [h1, h3], ?_⟩
  rw [h1, h3]
  simp [preventBinding, DomState.setAttr, hlog]

/-- Witness for C6: running the sample bind task twice from a clean state
leaves the state of the first run unchanged and logs one application. -/
theorem wrapBindCall_applies_once_witness :
    (wrapBindCall 1 "bind-html" "x" sampleBindFn
        (wrapBindCall 1 "bind-html" "x" sampleBindFn emptyDom) =
      wrapBindCall 1 "bind-html" "x" sampleBindFn emptyDom) ∧
    (wrapBindCall 1 "bind-html" "x" sampleBindFn
        (wrapBindCall 1 "bind-html" "x" sampleBindFn emptyDom)).log =
      emptyDom.log ++ [(1, "bind-html")] :=
  wrapBindCall_applies_once emptyDom 1 "bind-html" "x" sampleBindFn rfl (fun _ => rfl)

/-- Claim C7 (code bug at the failing input): when the reactive
re-evaluation of a watched binding fails — here the root expression `f()`
after the model field `f` was mutated to the non-function value `1` — the
watch callback installed by `watchModel` ignores the evaluation error and
calls `reflect.Value.Interface` on the zero value, which panics instead of
cleanly aborting the update. -/
theorem watch_callback_panics_on_failed_eval :
    (evaluateRec sampleFnEnv mutatedScope callFRoot).err =
      some ("Cannot call " ++ goQuote "f" ++ ", it\x27s not a method.") ∧
    watchModelCallback sampleFnEnv mutatedScope callFRoot =
      .error "reflect: call of reflect.Value.Interface on zero Value" :=
  ⟨rfl, rfl⟩

/-- Claim C5: for a DOM bind whose expression evaluates successfully, the
binder's `Watch` (two-way write-back) is installed if and only if the
evaluation produced exactly one watchable dependency. -/
theorem processDomBind_watch_iff_single (fenv : FnEnv) (b : Binding) (astr bstr : String)
    (elemId : Nat) (bs : Scope) (once : Bool) (run : DomBindRun)
    (bexpr : String) (outs : List String) (root : Option Expr)
    (blist : List ModelFieldSym) (v : Option RVal)
    (hrun : processDomBind fenv b astr bstr elemId bs once = .ok run)
    (hsplit : domBindSplit bstr = .ok (bexpr, outs))
    (heval : evaluateBindString fenv bs bexpr = .ok (root, blist, v)) :
    run.watchInstalled = true ↔ blist.length = 1 := by
  unfold processDomBind at hrun
  cases hsp : goSplit astr "-" with
  | nil => rw [hsp] at hrun; simp at hrun
  | cons a0 rest1 =>
    cases rest1 with
    | nil => rw [hsp] at hrun; simp at hrun
    | cons bname rest =>
      rw [hsp] at hrun
      by_cases hc : b.domBinders.contains bname = true
      · simp only [hc, if_true, hsplit, heval] at hrun
        injection hrun with h
        subst h
        simp
      · have hc2 : bname ∉ b.domBinders := by simpa using hc
        simp [hc2] at hrun

/-- Witness for C5: `bind-value="done"` against a model with the single
field `done` evaluates to one bindable, so `Watch` is installed. -/
theorem processDomBind_watch_iff_single_witness :
    doneDomRun.watchInstalled = true ↔
      ([(⟨"done", ⟨.vbool true, 1, "done"⟩⟩ : ModelFieldSym)]).length = 1 :=
  processDomBind_watch_iff_single sampleFnEnv valueBinding "bind-value" "done" 5
    doneScope false doneDomRun "done" [] (some (.mk "done" .ValueExpr []))
    [⟨"done", ⟨.vbool true, 1, "done"⟩⟩] (some (.vbool true)) rfl rfl rfl

/-- Helper for C1: every task scheduled by the attribute loop is a bind
task. -/
theorem bindPrepareAttrs_kinds (b : Binding) (eid : Nat) (tag : String) (conn isC : Bool) :
    ∀ (ats : List (String × String)) (ts : List Task),
      bindPrepareAttrs b eid tag conn isC ats = .ok ts → ∀ t ∈ ts, t.isBind = true := by
  intro ats
  induction ats with
  | nil =>
    intro ts h t ht
    simp only [bindPrepareAttrs, Except.ok.injEq] at h
    subst h
    simp at ht
  | cons a rest ih =>
    obtain ⟨name, bstr⟩ := a
    intro ts h t ht
    simp only [bindPrepareAttrs] at h
    by_cases h1 : name = "bind"
    · rw [if_pos h1] at h
      by_cases hic : isC = true
      · rw [if_pos hic] at h
        cases hr : bindPrepareAttrs b eid tag conn isC rest with
        | error er => rw [hr] at h; simp at h
        | ok ts2 =>
          rw [hr] at h
          simp only [Except.ok.injEq] at h
          subst h
          rcases List.mem_cons.mp ht with h2 | h2
          · subst h2; rfl
          · exact ih ts2 hr t h2
      · rw [if_neg hic] at h
        simp at h
    · rw [if_neg h1] at h
      by_cases h2 : goHasPrefix name "bind-" = true ∧ conn = true
      · rw [if_pos h2] at h
        by_cases hic : isC = true
        · rw [if_pos hic] at h
          simp at h
        · rw [if_neg hic] at h
          cases hr : bindPrepareAttrs b eid tag conn isC rest with
          | error er => rw [hr] at h; simp at h
          | ok ts2 =>
            rw [hr] at h
            simp only [Except.ok.injEq] at h
            subst h
            rcases List.mem_cons.mp ht with h3 | h3
            · subst h3; rfl
            · exact ih ts2 hr t h3
      · rw [if_neg h2] at h
        exact ih ts h t ht

/-- Helper for C1: an element's children are smaller than the element. -/
theorem sizeOf_children_lt (e : Elem) : sizeOf e.children < sizeOf e := by
  cases e with
  | mk i t a c cs => simp [Elem.children]

/-- Helper for C1, by strong induction on the tree size: the task lists
returned by `bindPrepareElem` and `bindPrepareList` contain only bind tasks
in the first component and only custom-element tasks in the second. -/
theorem bindPrepare_kinds_aux (b : Binding) :
    ∀ n : Nat,
      (∀ e : Elem, sizeOf e ≤ n → ∀ (bs : Scope) (once recurse : Bool) bt cet,
        bindPrepareElem b e bs once recurse = .ok (bt, cet) → TasksOk bt cet) ∧
      (∀ es : List Elem, sizeOf es ≤ n → ∀ (bs : Scope) (once : Bool) bt cet,
        bindPrepareList b es bs once = .ok (bt, cet) → TasksOk bt cet) := by
  intro n
  induction n with
  | zero =>
    constructor
    · intro e hs
      exfalso
      cases e
      simp at hs
    · intro es hs
      exfalso
      cases es <;> simp at hs
  | succ n ih =>
    obtain ⟨ihE, ihL⟩ := ih
    constructor
    · intro e hs bs once recurse bt cet h
      cases e with
      | mk eid tag ats conn children =>
        simp only [bindPrepareElem] at h
        cases hA : bindPrepareAttrs b eid tag conn (b.customTags.contains tag) ats with
        | error er => rw [hA] at h; simp at h
        | ok bts =>
          rw [hA] at h
          simp only [] at h
          have hbts := bindPrepareAttrs_kinds b eid tag conn (b.customTags.contains tag) ats bts hA
          by_cases hrec : recurse = true
          · rw [if_pos hrec] at h
            by_cases hic : b.customTags.contains tag = true
            · rw [if_pos hic] at h
              simp only [Except.ok.injEq, Prod.mk.injEq] at h
              obtain ⟨h1, h2⟩ := h
              subst h1
              subst h2
              refine ⟨hbts, ?_⟩
              intro t ht
              rw [List.mem_singleton] at ht
              subst ht
              rfl
            · rw [if_neg hic] at h
              cases hL : bindPrepareList b children bs once with
              | error er => rw [hL] at h; simp at h
              | ok r =>
                obtain ⟨bt2, cet2⟩ := r
                rw [hL] at h
                simp only [Except.ok.injEq, Prod.mk.injEq] at h
                obtain ⟨h1, h2⟩ := h
                subst h1
                subst h2
                have hchild : sizeOf children ≤ n := by
                  simp at hs
                  omega
                have hr := ihL children hchild bs once bt2 cet2 hL
                refine ⟨?_, hr.2⟩
                intro t ht
                rcases List.mem_append.mp ht with h3 | h3
                · exact hbts t h3
                · exact hr.1 t h3
          · rw [if_neg hrec] at h
            simp only [Except.ok.injEq, Prod.mk.injEq] at h
            obtain ⟨h1, h2⟩ := h
            subst h1
            subst h2
            refine ⟨hbts, ?_⟩
            intro t ht
            simp at ht
    · intro es hs bs once bt cet h
      cases es with
      | nil =>
        simp only [bindPrepareList, Except.ok.injEq, Prod.mk.injEq] at h
        obtain ⟨h1, h2⟩ := h
        subst h1
        subst h2
        exact ⟨fun t ht => by simp at ht, fun t ht => by simp at ht⟩
      | cons e rest =>
        simp only [bindPrepareList] at h
        cases hE : bindPrepareElem b e bs once true with
        | error er => rw [hE] at h; simp at h
        | ok r =>
          obtain ⟨bt1, cet1⟩ := r
          rw [hE] at h
          cases hR : bindPrepareList b rest bs once with
          | error er => rw [hR] at h; simp at h
          | ok rr =>
            obtain ⟨bt2, cet2⟩ := rr
            rw [hR] at h
            simp only [Except.ok.injEq, Prod.mk.injEq] at h
            obtain ⟨h1, h2⟩ := h
            subst h1
            subst h2
            have hse : sizeOf e ≤ n := by
              simp at hs
              omega
            have hsr : sizeOf rest ≤ n := by
              simp at hs
              omega
            have r1 := ihE e hse bs once true bt1 cet1 hE
            have r2 := ihL rest hsr bs once bt2 cet2 hR
            constructor
            · intro t ht
              rcases List.mem_append.mp ht with h3 | h3
              · exact r1.1 t h3
              · exact r2.1 t h3
            · intro t ht
              rcases List.mem_append.mp ht with h3 | h3
              · exact r1.2 t h3
              · exact r2.2 t h3

/-- Helper for C1: the two lists returned by `bindPrepare` hold only bind
tasks and only custom-element tasks respectively. -/
theorem bindPrepare_kinds (b : Binding) (relem : Elem) (bs : Scope) (once bindrelem : Bool)
    (bt cet : List Task) (h : bindPrepare b relem bs once bindrelem = .ok (bt, cet)) :
    TasksOk bt cet := by
  have aux := bindPrepare_kinds_aux b (sizeOf relem)
  unfold bindPrepare at h
  by_cases hb : bindrelem = true
  · rw [if_pos hb] at h
    cases hE : bindPrepareElem b relem bs once false with
    | error er => rw [hE] at h; simp at h
    | ok r0 =>
      obtain ⟨bt0, cet0⟩ := r0
      rw [hE] at h
      cases hL : bindPrepareList b relem.children bs once with
      | error er => rw [hL] at h; simp at h
      | ok rc =>
        obtain ⟨bt1, cet1⟩ := rc
        rw [hL] at h
        simp only [Except.ok.injEq, Prod.mk.injEq] at h
        obtain ⟨h1, h2⟩ := h
        subst h1
        subst h2
        have r0k := aux.1 relem (le_refl _) bs once false bt0 cet0 hE
        have rck := aux.2 relem.children (le_of_lt (sizeOf_children_lt relem)) bs once bt1 cet1 hL
        constructor
        · intro t ht
          rcases List.mem_append.mp ht with h3 | h3
          · exact r0k.1 t h3
          · exact rck.1 t h3
        · intro t ht
          rcases List.mem_append.mp ht with h3 | h3
          · exact r0k.2 t h3
          · exact rck.2 t h3
  · rw [if_neg hb] at h
    exact aux.2 relem.children (le_of_lt (sizeOf_children_lt relem)) bs once bt cet h

/-- Claim C1: for every `bindWithScope` (and hence top-level `Bind`) run,
the executed task order is all bind tasks first, then all custom-element
tasks: whenever position `i` of the execution trace is a bind task and
position `j` is a custom-element task — including tasks gathered from
recursive `bindPrepare` calls over the whole subtree — then `i < j`. -/
theorem bind_tasks_run_before_custom_tasks (b : Binding) (relem : Elem)
    (once bindrelem : Bool) (s : Scope) (tr : List Task)
    (htr : bindWithScope b relem once bindrelem s = .ok tr)
    (i j : Nat) (hi : i < tr.length) (hj : j < tr.length)
    (hbind : (tr.get ⟨i, hi⟩).isBind = true)
    (hcustom : (tr.get ⟨j, hj⟩).isBind = false) : i < j := by
  unfold bindWithScope at htr
  cases hbp : bindPrepare b relem s once bindrelem with
  | error er => rw [hbp] at htr; simp at htr
  | ok r =>
    obtain ⟨bt, cet⟩ := r
    rw [hbp] at htr
    simp only [Except.ok.injEq] at htr
    subst htr
    have hk := bindPrepare_kinds b relem s once bindrelem bt cet hbp
    have hib : i < bt.length := by
      by_contra hc
      push_neg at hc
      have hmem : (bt ++ cet).get ⟨i, hi⟩ ∈ cet := by
        rw [List.get_eq_getElem, List.getElem_append_right hc]
        exact List.getElem_mem _
      have := hk.2 _ hmem
      rw [hbind] at this
      exact Bool.noConfusion this
    have hjb : bt.length ≤ j := by
      by_contra hc
      push_neg at hc
      have hmem : (bt ++ cet).get ⟨j, hj⟩ ∈ bt := by
        rw [List.get_eq_getElem, List.getElem_append_left hc]
        exact List.getElem_mem _
      have := hk.1 _ hmem
      rw [hcustom] at this
      exact Bool.noConfusion this
    omega

/-- Witness for C1: on the sample tree (a plain child with `bind-html` and
a custom-tag child `t-foo` with a `bind` attribute), position 1 of the
trace is a bind task and position 2 the custom-element task, so 1 < 2. -/
theorem bind_tasks_run_before_custom_tasks_witness : (1 : Nat) < 2 :=
  bind_tasks_run_before_custom_tasks treeBinding rootElem false false ⟨[]⟩
    [.bind 1 "bind-html" "x", .bind 2 "bind" "a: 1", .custom 2] rfl
    1 2 (by decide) (by decide) rfl rfl

/-- Helper for C8: a string built from three parts contains the middle part
as a substring. -/
theorem data_infix_of_parts (mid pre post whole : String)
    (h : pre.data ++ mid.data ++ post.data = whole.data) : mid.data <:+: whole.data :=
  ⟨pre.data, post.data, h⟩

/-- Counterexample to C8 as stated: processing the attribute bind string
`a!b: done` panics on the invalid character, but the panic message quotes
only the field name `a!b`; it does not contain the full original
bind-string `a!b: done`. -/
theorem invalid_char_full_bindstring_counterexample :
    processAttrBind sampleFnEnv valueBinding "bind" "a!b: done" 0 ⟨[]⟩ true (.obj ⟨1, []⟩) =
      .error "invalid character \x27!\x27, while processing bind string \"a!b\"." ∧
    ¬ ("a!b: done".data <:+:
        "invalid character \x27!\x27, while processing bind string \"a!b\".".data) :=
  ⟨rfl, by decide⟩

/-- Claim C8 (amended): an invalid character in an attribute-bind field
name or in a DOM-bind output name is a hard parse error whose panic message
quotes the offending character and the offending (trimmed) field/output
name — the fragment being parsed — rather than the full original
bind-string. -/
theorem invalid_char_quotes_fragment
    (fenv : FnEnv) (b : Binding) (astr bstr : String) (elemId : Nat) (bs : Scope)
    (once : Bool) (tModel : ModelRV) (fb f0 v0 : String) (c : Char)
    (hsplit : goSplit bstr ";" = [fb])
    (hfv : goSplit fb ":" = [f0, v0])
    (hc : firstInvalidChar (goTrimSpace f0) = some c)
    (astr2 bstr2 a0 bname : String) (restParts : List String)
    (p0 p1 : String) (ps : List String) (c2 : Char) (o : String)
    (hast : goSplit astr2 "-" = a0 :: bname :: restParts)
    (hbinder : b.domBinders.contains bname = true)
    (hbs2 : goSplit bstr2 "->" = p0 :: p1 :: ps)
    (hout : firstInvalidOut ((goSplit p1 ",").map goTrimSpace) = some (c2, o)) :
    (processAttrBind fenv b astr bstr elemId bs once tModel =
      .error (bindStringMsg ("invalid character " ++ goQuoteChar c) (goTrimSpace f0)) ∧
     (goQuoteChar c).data <:+:
       (bindStringMsg ("invalid character " ++ goQuoteChar c) (goTrimSpace f0)).data ∧
     (goTrimSpace f0).data <:+:
       (bindStringMsg ("invalid character " ++ goQuoteChar c) (goTrimSpace f0)).data) ∧
    (processDomBind fenv b astr2 bstr2 elemId bs once =
      .error (bindStringMsg ("invalid character " ++ goQuoteChar c2) o) ∧
     (goQuoteChar c2).data <:+: (bindStringMsg ("invalid character " ++ goQuoteChar c2) o).data ∧
     o.data <:+: (bindStringMsg ("invalid character " ++ goQuoteChar c2) o).data) := by
  have hfb : fb ≠ "" := by
    intro he
    rw [he] at hfv
    simp [goSplit, splitCharsF] at hfv
  constructor
  · refine ⟨?_, ?_, ?_⟩
    · simp [processAttrBind, processAttrBindLoop, processOneAttrBind, hsplit, hfv, hc, hfb]
    · exact data_infix_of_parts (goQuoteChar c) "invalid character "
        (", while processing bind string " ++ goQuote (goTrimSpace f0) ++ ".") _
        (by simp [bindStringMsg, goQuote])
    · exact data_infix_of_parts (goTrimSpace f0)
        ("invalid character " ++ goQuoteChar c ++ ", while processing bind string " ++ "\"")
        ("\"" ++ ".") _
        (by simp [bindStringMsg, goQuote])
  · refine ⟨?_, ?_, ?_⟩
    · have hb2 : bname ∈ b.domBinders := by simpa using hbinder
      simp [processDomBind, domBindSplit, hast, hb2, hbs2, hout]
    · exact data_infix_of_parts (goQuoteChar c2) "invalid character "
        (", while processing bind string " ++ goQuote o ++ ".") _
        (by simp [bindStringMsg, goQuote])
    · exact data_infix_of_parts o
        ("invalid character " ++ goQuoteChar c2 ++ ", while processing bind string " ++ "\"")
        ("\"" ++ ".") _
        (by simp [bindStringMsg, goQuote])

/-- Witness for the amended C8: the field `a!b` (attribute bind) and the
output name `a!b` (DOM bind) both fail on `!`, and both messages quote the
character and the fragment. -/
theorem invalid_char_quotes_fragment_witness :
    (processAttrBind sampleFnEnv valueBinding "bind" "a!b: done" 0 ⟨[]⟩ true (.obj ⟨1, []⟩) =
      .error (bindStringMsg ("invalid character " ++ goQuoteChar (Char.ofNat 33)) (goTrimSpace "a!b")) ∧
     (goQuoteChar (Char.ofNat 33)).data <:+:
       (bindStringMsg ("invalid character " ++ goQuoteChar (Char.ofNat 33)) (goTrimSpace "a!b")).data ∧
     (goTrimSpace "a!b").data <:+:
       (bindStringMsg ("invalid character " ++ goQuoteChar (Char.ofNat 33)) (goTrimSpace "a!b")).data) ∧
    (processDomBind sampleFnEnv valueBinding "bind-value" "x-> a!b" 0 ⟨[]⟩ true =
      .error (bindStringMsg ("invalid character " ++ goQuoteChar (Char.ofNat 33)) "a!b") ∧
     (goQuoteChar (Char.ofNat 33)).data <:+:
       (bindStringMsg ("invalid character " ++ goQuoteChar (Char.ofNat 33)) "a!b").data ∧
     ("a!b" : String).data <:+:
       (bindStringMsg ("invalid character " ++ goQuoteChar (Char.ofNat 33)) "a!b").data) :=
  invalid_char_quotes_fragment sampleFnEnv valueBinding "bind" "a!b: done" 0 ⟨[]⟩ true
    (.obj ⟨1, []⟩) "a!b: done" "a!b" " done" (Char.ofNat 33) rfl rfl rfl
    "bind-value" "x-> a!b" "bind" "value" [] "x" " a!b" [] (Char.ofNat 33) "a!b"
    rfl rfl rfl rfl

end Wade
